import Mathlib

/-!
Verification of the streaming document transformation engine of the
HDHomeRun-to-XMLTV republisher.

The TypeScript sources embedded here are:
  - src/xmltv/streaming-filter.ts   (streamFilterEPG, streamDummyProgramming,
                                     parseDuration, formatTimestamp, escapeXML,
                                     generateDummyProgrammes)
  - src/xmltv/dummy-programming.ts  (parseDuration)
  - src/api/hdhomerun-client.ts     (mergeEPGData)

Strings are modelled as List Char (one entry per UTF-16-ish character; all
inputs of interest are ASCII, where JS string indices and our list indices
agree).  JavaScript numbers that hold integral timestamp values are modelled
as Int (seconds instead of milliseconds: every quantity in the sources is a
whole number of seconds, so the scale change is innocuous); a NaN-valued
number is modelled by Option.none at its producer.  Fractional hour counts
are modelled as Rat; every duration value exercised by a theorem below is
exactly representable as a binary double, so the Rat model agrees with the
source's float arithmetic on those values.  Local wall-clock time is
modelled as a fixed-offset linear clock (no DST jumps), matching the spec's
"offset-naive wall clock" comparison model.
-/

namespace HDHR

/-! ### JavaScript primitive embeddings -/

/-- One character of JS `String.prototype.toLowerCase` (ASCII range). -/
def lowerChar (c : Char) : Char :=
  if 65 ≤ c.toNat ∧ c.toNat ≤ 90 then Char.ofNat (c.toNat + 32) else c

/-- JS `s.toLowerCase()` (ASCII range). -/
def lowerStr (l : List Char) : List Char := l.map lowerChar

/-- Scanning worker for `findOcc`, accumulator-style so that long scans
evaluate without deep recursion. -/
def findOccAux (pat : List Char) : Nat → List Char → Option Nat
  | _, [] => none
  | i, c :: t => if pat.isPrefixOf (c :: t) then some i else findOccAux pat (i + 1) t

/-- Index of the first occurrence of `pat` in `l`, scanning left to right
(the content of JS `indexOf` with result `none` for `-1`). -/
def findOcc (pat : List Char) (l : List Char) : Option Nat :=
  findOccAux pat 0 l

/-- JS `l.indexOf(pat, pos)` (absolute index). -/
def jsIndexOfFrom (pat : List Char) (l : List Char) (pos : Nat) : Option Nat :=
  (findOcc pat (l.drop pos)).map (· + pos)

/-- JS `l.slice(a, b)` with negative-index normalisation. -/
def jsSlice (l : List Char) (a b : Int) : List Char :=
  let n : Int := l.length
  let u : Int := if a < 0 then max (n + a) 0 else min a n
  let v : Int := if b < 0 then max (n + b) 0 else min b n
  if u < v then (l.drop u.toNat).take (v - u).toNat else []

/-- JS `l.slice(a)` with negative-index normalisation. -/
def jsSliceFrom (l : List Char) (a : Int) : List Char :=
  let n : Int := l.length
  let u : Int := if a < 0 then max (n + a) 0 else min a n
  l.drop u.toNat

/-- Value of a character as a digit in the given radix (JS digit rules:
0-9, then a-z / A-Z). -/
def digitVal (radix : Nat) (c : Char) : Option Nat :=
  let v : Option Nat :=
    if 48 ≤ c.toNat ∧ c.toNat ≤ 57 then some (c.toNat - 48)
    else if 97 ≤ c.toNat ∧ c.toNat ≤ 122 then some (c.toNat - 87)
    else if 65 ≤ c.toNat ∧ c.toNat ≤ 90 then some (c.toNat - 55)
    else none
  match v with
  | some n => if n < radix then some n else none
  | none => none

/-- JS `parseInt(s)` with no radix argument: skip whitespace, optional
sign, optional `0x`/`0X` hex prefix, then the longest run of digits;
`none` models the NaN result when no digit is found. -/
def jsParseInt (s : List Char) : Option Int :=
  let s1 := s.dropWhile fun c => c = ' ' ∨ c = '\t' ∨ c = '\n' ∨ c = '\r'
  let signed : Int × List Char :=
    match s1 with
    | c :: t => if c = '-' then (-1, t) else if c = '+' then (1, t) else (1, c :: t)
    | [] => (1, [])
  let based : Nat × List Char :=
    match signed.2 with
    | c1 :: c2 :: t =>
      if c1 = '0' ∧ (c2 = 'x' ∨ c2 = 'X') then (16, t) else (10, c1 :: c2 :: t)
    | l => (10, l)
  let ds := based.2.takeWhile fun c => (digitVal based.1 c).isSome
  if ds = [] then none
  else some (signed.1 * (ds.foldl (fun n c => based.1 * n + (digitVal based.1 c).getD 0) 0 : Nat))

/-- Digits of a decimal literal folded to a Nat. -/
def digitsToNat (ds : List Char) : Nat :=
  ds.foldl (fun n c => 10 * n + (c.toNat - 48)) 0

/-! ### Calendar arithmetic (the JS `Date` MakeDay/MakeTime model)

`daysFromCivil` is the standard civil-calendar day-number algorithm
(days since 1970-01-01, proleptic Gregorian), which is exactly what the
ECMAScript MakeDay computation denotes. -/

/-- Day number (days since the epoch) of year `y`, month `m` (1..12 after
normalisation), day `d`; `d` may be out of range, matching MakeDay. -/
def daysFromCivil (y m d : Int) : Int :=
  let y2 := if m ≤ 2 then y - 1 else y
  let era := y2.fdiv 400
  let yoe := y2 - era * 400
  let mp := (m + 9).emod 12
  let doy := (153 * mp + 2).fdiv 5 + d - 1
  let doe := yoe * 365 + yoe.fdiv 4 - yoe.fdiv 100 + doy
  era * 146097 + doe - 719468

/-- ECMAScript MakeDay: `month0` is 0-based and may be out of range. -/
def makeDay (year month0 day : Int) : Int :=
  daysFromCivil (year + month0.fdiv 12) (month0.emod 12 + 1) day

/-- Seconds-since-epoch (fixed-offset local clock) of
`new Date(year, month0, day, h, mi, s).getTime()`, including the
constructor's mapping of two-digit years into 19xx. -/
def jsDateCtorTime (year month0 day h mi s : Int) : Int :=
  let yr := if 0 ≤ year ∧ year ≤ 99 then year + 1900 else year
  makeDay yr month0 day * 86400 + h * 3600 + mi * 60 + s

/-- Civil date (year, month 1..12, day 1..) from a day number: the inverse
of `daysFromCivil`, used to model the `Date` getters when formatting. -/
def civilFromDays (z0 : Int) : Int × Int × Int :=
  let z := z0 + 719468
  let era := z.fdiv 146097
  let doe := z - era * 146097
  let yoe := (doe - doe.fdiv 1460 + doe.fdiv 36524 - doe.fdiv 146096).fdiv 365
  let y := yoe + era * 400
  let doy := doe - (365 * yoe + yoe.fdiv 4 - yoe.fdiv 100)
  let mp := (5 * doy + 2).fdiv 153
  let d := doy - (153 * mp + 2).fdiv 5 + 1
  let m := if mp < 10 then mp + 3 else mp - 9
  (if m ≤ 2 then y + 1 else y, m, d)

/-! ### parseDuration (dummy-programming.ts lines 42-67 and the identical
copy in streaming-filter.ts lines 173-190) -/

/-- JS `Math.min` on two exact rationals. -/
def jsMin (a b : ℚ) : ℚ := if a ≤ b then a else b

/-- JS `Math.max` on two exact rationals. -/
def jsMax (a b : ℚ) : ℚ := if a ≤ b then b else a

/-- Exact value of the decimal literal `intPart.fracPart` (what
`parseFloat` denotes on the regex capture; rationals are built with
`mkRat` so that they evaluate inside the kernel). -/
def parseDecimal (intPart fracPart : List Char) : ℚ :=
  mkRat (digitsToNat intPart * 10 ^ fracPart.length + digitsToNat fracPart) (10 ^ fracPart.length)

/-- `q / 60` (the `value / 60.0` step of `parseDuration`). -/
def qDiv60 (q : ℚ) : ℚ := mkRat q.num (q.den * 60)

/-- Embedding of `parseDuration(durationStr)`: the regex
`(\d+(?:\.\d+)?)(hr|hour|hours|min|mins|minutes?)?` matches at the first
digit of the string; the captured unit only ever feeds
`unit.startsWith('min')`, with a missing unit defaulting to `'hr'`. -/
def parseDuration (durationStr : List Char) : ℚ :=
  let normalized := lowerStr durationStr
  if normalized = "true".data ∨ normalized = "1".data ∨ normalized = "yes".data then 1
  else
    let fromDigit := normalized.dropWhile fun c => ¬ c.isDigit
    match fromDigit with
    | [] => 1
    | _ =>
      let intPart := fromDigit.takeWhile Char.isDigit
      let rest1 := fromDigit.drop intPart.length
      let fracAndRest : List Char × List Char :=
        match rest1 with
        | c :: t =>
          if c = '.' then
            let f := t.takeWhile Char.isDigit
            if f = [] then ([], rest1) else (f, t.drop f.length)
          else ([], rest1)
        | [] => ([], [])
      let value := parseDecimal intPart fracAndRest.1
      let hours := if "min".data.isPrefixOf fracAndRest.2 then qDiv60 value else value
      jsMax (mkRat 1 2) (jsMin 12 hours)

/-- C9: Duration parsing: parseDuration maps "30min" to 0.5 hours, "2hr" to
2 hours, "true" to exactly 1 hour, "0.2" to 0.5 hours (clamped to the
0.5-hour minimum), and "20hr" to 12 hours (clamped to the 12-hour
maximum). -/
theorem parseDuration_spec_values :
    parseDuration "30min".data = 1 / 2 ∧
    parseDuration "2hr".data = 2 ∧
    parseDuration "true".data = 1 ∧
    parseDuration "0.2".data = 1 / 2 ∧
    parseDuration "20hr".data = 12 := by
  have h : (mkRat 1 2 : ℚ) = 1 / 2 := by norm_num [mkRat, Rat.normalize]
  refine ⟨?_, by decide, by decide, ?_, by decide⟩
  · rw [show parseDuration "30min".data = mkRat 1 2 from by decide, h]
  · rw [show parseDuration "0.2".data = mkRat 1 2 from by decide, h]

/-! ### Window merger (hdhomerun-client.ts, mergeEPGData, lines 183-201)

`EPGResponse` is an array of channel objects `{GuideNumber, ..., Guide}`;
the fields other than `GuideNumber` and `Guide` are never inspected by the
merge and are modelled by the opaque `meta` payload; likewise a programme
entry is its `StartTime` plus an opaque payload. -/

structure GuideEntry where
  startTime : Int
  info : List Char
deriving DecidableEq

structure GuideChannel where
  guideNumber : List Char
  meta : List Char
  guide : List GuideEntry
deriving DecidableEq

/-- Inner step of `mergeEPGData`: push `p` unless an entry with the same
`StartTime` already exists. -/
def addProgram (g : List GuideEntry) (p : GuideEntry) : List GuideEntry :=
  if g.any fun q => q.startTime == p.startTime then g else g ++ [p]

/-- The `for (const newProgram of newChannel.Guide)` loop. -/
def mergeChannelGuide (g : List GuideEntry) (ps : List GuideEntry) : List GuideEntry :=
  ps.foldl addProgram g

/-- `baseGuide.find(ch => ch.GuideNumber === newChannel.GuideNumber)`
followed by the in-place extension of that channel's `Guide`: the first
matching channel record is extended, everything else is untouched, and a
channel with no match in the base contributes nothing. -/
def mergeIntoBase (nc : GuideChannel) : List GuideChannel → List GuideChannel
  | [] => []
  | c :: rest =>
    if c.guideNumber == nc.guideNumber then
      { c with guide := mergeChannelGuide c.guide nc.guide } :: rest
    else
      c :: mergeIntoBase nc rest

/-- `mergeEPGData(baseGuide, newData)` as a function from the base guide
and one fetched window to the updated guide. -/
def mergeEPGData (baseGuide newData : List GuideChannel) : List GuideChannel :=
  newData.foldl (fun b nc => mergeIntoBase nc b) baseGuide

/-- `fetchEPGData`'s merge loop folds a sequence of later windows into the
base guide, in fetch order. -/
def mergeAllWindows (baseGuide : List GuideChannel) (windows : List (List GuideChannel)) :
    List GuideChannel :=
  windows.foldl mergeEPGData baseGuide

/-- How one channel record may evolve under the merge: identity and
metadata unchanged, programme list extended on the right by entries whose
start times are fresh with respect to the original list. -/
def ChannelExtends (b c : GuideChannel) : Prop :=
  c.guideNumber = b.guideNumber ∧ c.meta = b.meta ∧
  ∃ ex, c.guide = b.guide ++ ex ∧ ∀ q ∈ ex, ∀ p ∈ b.guide, q.startTime ≠ p.startTime

/-- The spec's Guide invariant (§3): the merge target is a mapping from
channel-id to programme entries — channel keys are unique — and no two
entries of a channel share a start-timestamp. -/
def GuideWellFormed (g : List GuideChannel) : Prop :=
  (g.map fun c => c.guideNumber).Nodup ∧
  ∀ c ∈ g, (c.guide.map fun p => p.startTime).Nodup

instance (g : List GuideChannel) : Decidable (GuideWellFormed g) := by
  unfold GuideWellFormed
  infer_instance

theorem channelExtends_refl (c : GuideChannel) : ChannelExtends c c :=
  ⟨rfl, rfl, [], by simp, by simp⟩

theorem channelExtends_trans {a b c : GuideChannel}
    (h1 : ChannelExtends a b) (h2 : ChannelExtends b c) : ChannelExtends a c := by
  obtain ⟨hn1, hm1, ex1, hg1, hf1⟩ := h1
  obtain ⟨hn2, hm2, ex2, hg2, hf2⟩ := h2
  refine ⟨hn2.trans hn1, hm2.trans hm1, ex1 ++ ex2, by rw [hg2, hg1, List.append_assoc], ?_⟩
  intro q hq p hp
  rcases List.mem_append.mp hq with hq1 | hq2
  · exact hf1 q hq1 p hp
  · exact hf2 q hq2 p (by rw [hg1]; exact List.mem_append.mpr (Or.inl hp))

theorem mergeChannelGuide_extends (ps : List GuideEntry) :
    ∀ g : List GuideEntry, ∃ ex, mergeChannelGuide g ps = g ++ ex ∧
      ∀ q ∈ ex, ∀ p ∈ g, q.startTime ≠ p.startTime := by
  induction ps with
  | nil => exact fun g => ⟨[], by simp [mergeChannelGuide], by simp⟩
  | cons p ps ih =>
    intro g
    have hstep : mergeChannelGuide g (p :: ps) = mergeChannelGuide (addProgram g p) ps := rfl
    by_cases hex : g.any fun q => q.startTime == p.startTime
    · have hadd : addProgram g p = g := by simp [addProgram, hex]
      obtain ⟨ex, hg, hf⟩ := ih g
      exact ⟨ex, by rw [hstep, hadd, hg], hf⟩
    · have hadd : addProgram g p = g ++ [p] := by simp [addProgram, hex]
      obtain ⟨ex, hg, hf⟩ := ih (g ++ [p])
      refine ⟨p :: ex, by rw [hstep, hadd, hg]; simp, ?_⟩
      have hfresh : ∀ r ∈ g, p.startTime ≠ r.startTime := by
        intro r hr hpr
        exact hex (List.any_eq_true.mpr ⟨r, hr, beq_iff_eq.mpr hpr.symm⟩)
      intro q hq r hr
      rcases List.mem_cons.mp hq with rfl | hq2
      · exact hfresh r hr
      · exact hf q hq2 r (List.mem_append.mpr (Or.inl hr))

theorem mergeIntoBase_extends (nc : GuideChannel) (base : List GuideChannel) :
    List.Forall₂ ChannelExtends base (mergeIntoBase nc base) := by
  induction base with
  | nil => exact List.Forall₂.nil
  | cons c rest ih =>
    by_cases h : c.guideNumber == nc.guideNumber
    · have : mergeIntoBase nc (c :: rest) =
        { c with guide := mergeChannelGuide c.guide nc.guide } :: rest := by
        simp [mergeIntoBase, h]
      rw [this]
      refine List.Forall₂.cons ?_ (List.forall₂_same.mpr fun x _ => channelExtends_refl x)
      obtain ⟨ex, hg, hf⟩ := mergeChannelGuide_extends nc.guide c.guide
      exact ⟨rfl, rfl, ex, hg, hf⟩
    · have : mergeIntoBase nc (c :: rest) = c :: mergeIntoBase nc rest := by
        simp [mergeIntoBase, h]
      rw [this]
      exact List.Forall₂.cons (channelExtends_refl c) ih

theorem forall₂_channelExtends_trans {a b c : List GuideChannel}
    (h1 : List.Forall₂ ChannelExtends a b) (h2 : List.Forall₂ ChannelExtends b c) :
    List.Forall₂ ChannelExtends a c := by
  induction h1 generalizing c with
  | nil => cases h2; exact List.Forall₂.nil
  | cons hab h1' ih =>
    cases h2 with
    | cons hbc h2' => exact List.Forall₂.cons (channelExtends_trans hab hbc) (ih h2')

theorem mergeEPGData_extends (base : List GuideChannel) (newData : List GuideChannel) :
    List.Forall₂ ChannelExtends base (mergeEPGData base newData) := by
  suffices h : ∀ (nd : List GuideChannel) (b : List GuideChannel),
      List.Forall₂ ChannelExtends b (nd.foldl (fun b nc => mergeIntoBase nc b) b) by
    exact h newData base
  intro nd
  induction nd with
  | nil => exact fun b => List.forall₂_same.mpr fun x _ => channelExtends_refl x
  | cons nc nd ih =>
    intro b
    exact forall₂_channelExtends_trans (mergeIntoBase_extends nc b) (ih (mergeIntoBase nc b))

theorem mergeAllWindows_extends (base : List GuideChannel) (windows : List (List GuideChannel)) :
    List.Forall₂ ChannelExtends base (mergeAllWindows base windows) := by
  induction windows generalizing base with
  | nil => exact List.forall₂_same.mpr fun x _ => channelExtends_refl x
  | cons w ws ih =>
    exact forall₂_channelExtends_trans (mergeEPGData_extends base w)
      (ih (mergeEPGData base w))

theorem forall₂_extends_map_pairs {a b : List GuideChannel}
    (h : List.Forall₂ ChannelExtends a b) :
    b.map (fun c => (c.guideNumber, c.meta)) = a.map (fun c => (c.guideNumber, c.meta)) := by
  induction h with
  | nil => rfl
  | @cons x y l1 l2 hx hrest ih =>
    obtain ⟨hn, hm, _⟩ := hx
    simp only [List.map_cons, ih, hn, hm]

/-- C8: Merge frame property: mergeEPGData (folded over any sequence of
later windows) never adds a channel — the merged guide has exactly the
base's channel records, with metadata untouched, and each channel's
original programme entries kept in place and order, the only change being
entries appended on the right. -/
theorem mergeEPGData_frame (base : List GuideChannel) (windows : List (List GuideChannel)) :
    (mergeAllWindows base windows).map (fun c => (c.guideNumber, c.meta)) =
      base.map (fun c => (c.guideNumber, c.meta)) ∧
    List.Forall₂ (fun b c => ∃ ex, c.guide = b.guide ++ ex) base (mergeAllWindows base windows) := by
  have h := mergeAllWindows_extends base windows
  refine ⟨forall₂_extends_map_pairs h, List.Forall₂.imp (fun x y hx => ?_) h⟩
  obtain ⟨_, _, ex, hex, _⟩ := hx
  exact ⟨ex, hex⟩

theorem addProgram_nodup {g : List GuideEntry} (p : GuideEntry)
    (h : (g.map fun q => q.startTime).Nodup) :
    ((addProgram g p).map fun q => q.startTime).Nodup := by
  by_cases hex : g.any fun q => q.startTime == p.startTime
  · simpa [addProgram, hex] using h
  · have hfresh : p.startTime ∉ g.map fun q => q.startTime := by
      intro hmem
      obtain ⟨r, hr, hst⟩ := List.mem_map.mp hmem
      exact hex (List.any_eq_true.mpr ⟨r, hr, beq_iff_eq.mpr hst⟩)
    have haddeq : addProgram g p = g ++ [p] := by simp [addProgram, hex]
    rw [haddeq, List.map_append, List.map_cons, List.map_nil]
    exact List.nodup_append.mpr ⟨h, List.nodup_singleton _, by simpa using hfresh⟩

theorem mergeChannelGuide_nodup (ps : List GuideEntry) :
    ∀ g : List GuideEntry, (g.map fun q => q.startTime).Nodup →
      ((mergeChannelGuide g ps).map fun q => q.startTime).Nodup := by
  induction ps with
  | nil => exact fun g h => h
  | cons p ps ih => exact fun g h => ih (addProgram g p) (addProgram_nodup p h)

theorem mergeIntoBase_guides_nodup (nc : GuideChannel) (base : List GuideChannel)
    (h : ∀ c ∈ base, (c.guide.map fun q => q.startTime).Nodup) :
    ∀ c ∈ mergeIntoBase nc base, (c.guide.map fun q => q.startTime).Nodup := by
  induction base with
  | nil => simp [mergeIntoBase]
  | cons c rest ih =>
    intro x hx
    by_cases hgn : c.guideNumber == nc.guideNumber
    · rw [show mergeIntoBase nc (c :: rest) =
          { c with guide := mergeChannelGuide c.guide nc.guide } :: rest from by
            simp [mergeIntoBase, hgn]] at hx
      rcases List.mem_cons.mp hx with rfl | hx2
      · exact mergeChannelGuide_nodup nc.guide c.guide (h c (List.mem_cons_self c rest))
      · exact h x (List.mem_cons_of_mem c hx2)
    · rw [show mergeIntoBase nc (c :: rest) = c :: mergeIntoBase nc rest from by
          simp [mergeIntoBase, hgn]] at hx
      rcases List.mem_cons.mp hx with rfl | hx2
      · exact h x (List.mem_cons_self x rest)
      · exact ih (fun y hy => h y (List.mem_cons_of_mem c hy)) x hx2

theorem mergeEPGData_guides_nodup (newData : List GuideChannel) :
    ∀ base : List GuideChannel,
      (∀ c ∈ base, (c.guide.map fun q => q.startTime).Nodup) →
      ∀ c ∈ mergeEPGData base newData, (c.guide.map fun q => q.startTime).Nodup := by
  induction newData with
  | nil => exact fun base h => h
  | cons nc nd ih =>
    intro base h
    exact ih (mergeIntoBase nc base) (mergeIntoBase_guides_nodup nc base h)

theorem mergeAllWindows_guides_nodup (windows : List (List GuideChannel)) :
    ∀ base : List GuideChannel,
      (∀ c ∈ base, (c.guide.map fun q => q.startTime).Nodup) →
      ∀ c ∈ mergeAllWindows base windows, (c.guide.map fun q => q.startTime).Nodup := by
  induction windows with
  | nil => exact fun base h => h
  | cons w ws ih =>
    intro base h
    exact ih (mergeEPGData base w) (mergeEPGData_guides_nodup w base h)

/-- C7: Merge deduplication preserves the Guide invariant with first-wins
semantics: starting from a well-formed base guide (unique channel keys, no
two entries of a channel sharing a StartTime), folding in any sequence of
later windows yields a guide that is still well-formed; moreover each base
channel's record evolves by `ChannelExtends`: its already-present entries
are kept unchanged, in place and in order, and every appended entry has a
StartTime fresh with respect to the original list — so a later entry that
conflicts on (channel, StartTime) is discarded entirely, never merged
field-by-field. -/
theorem mergeEPGData_dedup_invariant (base : List GuideChannel)
    (windows : List (List GuideChannel)) (h : GuideWellFormed base) :
    GuideWellFormed (mergeAllWindows base windows) ∧
    List.Forall₂ ChannelExtends base (mergeAllWindows base windows) := by
  obtain ⟨hids, hguides⟩ := h
  have hext := mergeAllWindows_extends base windows
  refine ⟨⟨?_, mergeAllWindows_guides_nodup windows base hguides⟩, hext⟩
  have hpairs := forall₂_extends_map_pairs hext
  have : (mergeAllWindows base windows).map (fun c => c.guideNumber) =
      base.map fun c => c.guideNumber := by
    have := congrArg (List.map Prod.fst) hpairs
    simpa [List.map_map, Function.comp] using this
  rw [this]
  exact hids

/-- Witness for C7: a concrete conflicting second window — base channel X
has an entry at start time 5; the later window reports X at time 5 with a
different payload (and a fresh entry at 7). -/
theorem mergeEPGData_dedup_invariant_witness :
    GuideWellFormed [⟨"X".data, "m".data, [⟨5, "a".data⟩]⟩] ∧
    (GuideWellFormed
        (mergeAllWindows [⟨"X".data, "m".data, [⟨5, "a".data⟩]⟩]
          [[⟨"X".data, "n".data, [⟨5, "b".data⟩, ⟨7, "c".data⟩]⟩]]) ∧
      List.Forall₂ ChannelExtends [⟨"X".data, "m".data, [⟨5, "a".data⟩]⟩]
        (mergeAllWindows [⟨"X".data, "m".data, [⟨5, "a".data⟩]⟩]
          [[⟨"X".data, "n".data, [⟨5, "b".data⟩, ⟨7, "c".data⟩]⟩]])) :=
  ⟨by decide, mergeEPGData_dedup_invariant _ _ (by decide)⟩

/-! ### streamFilterEPG (streaming-filter.ts lines 18-141)

The transform is embedded as a state machine: `filterScan` is the inner
`while (true)` loop (fuel-indexed; every complete programme advances `pos`
by at least 12, so `buffer.length + 1` units of fuel are never exhausted),
`filterChunk` is one call of the Transform's `transform` callback, and
`runFilterTransform` pipes a list of chunks through and then runs the
`flush` callback, which pushes whatever is left in the buffer.  The cutoff
computation (`new Date()` → `setHours(0,0,0,0)` → `setDate(getDate()+days)`)
is parameterised by the local calendar date of the invocation instant. -/

def progOpenTok : List Char := "<programme".data

def progCloseTok : List Char := "</programme>".data

def gtTok : List Char := ">".data

/-- The timestamp parse of lines 99-107: fixed-width integer fields fed to
`new Date(year, month, day, hours, minutes, seconds)`; any NaN field makes
the Date invalid (`none`). -/
def parseXMLTVStart (ps : List Char) : Option Int :=
  match jsParseInt (jsSlice ps 0 4), (jsParseInt (jsSlice ps 4 6)).map (· - 1),
      jsParseInt (jsSlice ps 6 8), jsParseInt (jsSlice ps 8 10),
      jsParseInt (jsSlice ps 10 12), jsParseInt (jsSlice ps 12 14) with
  | some y, some mo, some d, some h, some mi, some s => some (jsDateCtorTime y mo d h mi s)
  | _, _, _, _, _, _ => none

/-- Lines 30-33: cutoff = midnight of the invocation day (local calendar
fields `y`, 0-based month `m0`, day-of-month `d`) with `days` added to the
day-of-month through the calendar (MakeDay normalisation). -/
def cutoffTimestamp (y m0 d days : Int) : Int :=
  makeDay y m0 (d + days) * 86400

/-- The per-programme filter decision of lines 97-115: an empty extracted
start attribute keeps the element; otherwise the element is kept exactly
when the parsed Date's time value compares strictly below the cutoff (a
NaN time value fails the `<` comparison, dropping the element). -/
def keepProgramme (programmeStart : List Char) (cutoffTs : Int) : Bool :=
  if programmeStart = [] then true
  else
    match parseXMLTVStart programmeStart with
    | some t => decide (t < cutoffTs)
    | none => false

/-- The regex extraction `openTag.match(/start="([^"]+)"/)` of lines 79-82:
first position carrying the literal `start="` followed by at least one
non-quote character and a closing quote; yields the captured run, or `[]`
when the regex does not match. -/
def findStartAttr : List Char → List Char
  | [] => []
  | c :: t =>
    if "start=\"".data.isPrefixOf (c :: t) then
      let after := (c :: t).drop 7
      let run := after.takeWhile fun x => x ≠ '"'
      if run ≠ [] ∧ after.drop run.length ≠ [] then run
      else findStartAttr t
    else findStartAttr t

structure ScanState where
  output : List Char
  pos : Nat
  buffer : List Char
  insideProgramme : Bool
  programmeStart : List Char
deriving DecidableEq

/-- The `while (true)` loop of lines 48-119, one constructor of fuel per
iteration.  A `break` returns the current state; the post-loop statements
of the callback live in `filterChunk`. -/
def filterScan (cutoffTs : Int) : Nat → ScanState → ScanState
  | 0, st => st
  | fuel + 1, st =>
    let step1 : Except ScanState ScanState :=
      if st.insideProgramme then Except.ok st
      else
        match jsIndexOfFrom progOpenTok st.buffer st.pos with
        | none =>
          Except.error
            (if (st.pos : Int) < (st.buffer.length : Int) - 1000 then
              { st with
                output := st.output ++ jsSlice st.buffer 0 (-1000),
                buffer := jsSliceFrom st.buffer (-1000) }
            else st)
        | some idx =>
          Except.ok
            { st with
              output := st.output ++ jsSlice st.buffer (st.pos : Int) (idx : Int),
              insideProgramme := true, programmeStart := [], pos := idx }
    match step1 with
    | Except.error stB => stB
    | Except.ok st1 =>
      match jsIndexOfFrom gtTok st1.buffer st1.pos with
      | none => st1
      | some openTagEnd =>
        let ps :=
          if st1.programmeStart = [] then
            findStartAttr (jsSlice st1.buffer (st1.pos : Int) ((openTagEnd : Int) + 1))
          else st1.programmeStart
        match jsIndexOfFrom progCloseTok st1.buffer st1.pos with
        | none => { st1 with programmeStart := ps }
        | some closeIdx =>
          let currentProgramme := jsSlice st1.buffer (st1.pos : Int) ((closeIdx : Int) + 12)
          filterScan cutoffTs fuel
            { output :=
                if keepProgramme ps cutoffTs then st1.output ++ currentProgramme
                else st1.output,
              pos := closeIdx + 12, buffer := st1.buffer,
              insideProgramme := false, programmeStart := [] }

structure FilterState where
  buffer : List Char
  insideProgramme : Bool
  programmeStart : List Char
deriving DecidableEq

/-- One invocation of the Transform's `transform(chunk, _, callback)`:
append the chunk to the buffer, run the scan loop, emit the accumulated
output, and keep `buffer.slice(pos)` for the next chunk. -/
def filterChunk (cutoffTs : Int) (fs : FilterState) (chunk : List Char) :
    List Char × FilterState :=
  let buf := fs.buffer ++ chunk
  let r := filterScan cutoffTs (buf.length + 1)
    { output := [], pos := 0, buffer := buf,
      insideProgramme := fs.insideProgramme, programmeStart := fs.programmeStart }
  (r.output, { buffer := jsSliceFrom r.buffer (r.pos : Int),
               insideProgramme := r.insideProgramme, programmeStart := r.programmeStart })

/-- The pipe of all chunks through the transform, before flushing: the
list of pushed outputs (in order) together with the final state. -/
def filterRun (cutoffTs : Int) (st : FilterState) :
    List (List Char) → List (List Char) × FilterState
  | [] => ([], st)
  | chunk :: rest =>
    let r := filterChunk cutoffTs st chunk
    let rec2 := filterRun cutoffTs r.2 rest
    (r.1 :: rec2.1, rec2.2)

/-- A whole pipeline run: all chunks, then the `flush` callback of lines
130-136, which pushes the remaining buffer (and never signals an error). -/
def runFilterTransform (cutoffTs : Int) (chunks : List (List Char)) : List Char :=
  let r := filterRun cutoffTs ⟨[], false, []⟩ chunks
  r.1.flatten ++ r.2.buffer

/-- Top level of `streamFilterEPG` (lines 22-33): a falsy `options.days`
(absent or 0) short-circuits to `copyFile`, whose output is the input
bytes; otherwise the cutoff is computed from the invocation day and the
transform pipeline runs. -/
def streamFilterEPG (days : Option Int) (y m0 d : Int) (chunks : List (List Char)) :
    List Char :=
  match days with
  | none => chunks.flatten
  | some n =>
    if n = 0 then chunks.flatten
    else runFilterTransform (cutoffTimestamp y m0 d n) chunks


/-- C10: a `days` value of 0 is falsy in the guard `if (!options.days)`,
so it takes the plain-copy fast path, exactly like an absent `days`: for
every input and invocation date the output bytes equal the input bytes. -/
theorem streamFilterEPG_days_zero_copies (y m0 d : Int) (chunks : List (List Char)) :
    streamFilterEPG (some 0) y m0 d chunks = chunks.flatten ∧
    streamFilterEPG none y m0 d chunks = chunks.flatten :=
  ⟨rfl, rfl⟩

theorem daysFromCivil_add (y m d n : Int) :
    daysFromCivil y m (d + n) = daysFromCivil y m d + n := by
  simp only [daysFromCivil]
  ring

theorem makeDay_add (y m0 d n : Int) :
    makeDay y m0 (d + n) = makeDay y m0 d + n := by
  simp only [makeDay]
  exact daysFromCivil_add _ _ d n

set_option maxRecDepth 40000 in
/-- C4: with day limit `n`, the cutoff is local midnight of the invocation
day plus `n` days, a programme is kept iff its parsed start is strictly
below the cutoff, and at `n = 3` a start exactly at midnight of day 3 is
excluded while one second earlier is included; non-programme content is
passed through (final conjuncts: a full run on a document holding both
boundary programmes and non-programme siblings). -/
theorem dateFilter_cutoff_boundary (y m0 d n : Int) (s : List Char) (t : Int)
    (h : parseXMLTVStart s = some t) :
    cutoffTimestamp y m0 d n = makeDay y m0 d * 86400 + n * 86400 ∧
    keepProgramme s (cutoffTimestamp y m0 d n) = decide (t < cutoffTimestamp y m0 d n) ∧
    keepProgramme "20251014000000 +0000".data (cutoffTimestamp 2025 9 11 3) = false ∧
    keepProgramme "20251013235959 +0000".data (cutoffTimestamp 2025 9 11 3) = true ∧
    runFilterTransform (cutoffTimestamp 2025 9 11 3)
        [("<tv><x/><programme start=\"20251014000000 +0000\" channel=\"a\">A</programme>" ++
          "<programme start=\"20251013235959 +0000\" channel=\"b\">B</programme><y/></tv>").data] =
      ("<tv><x/><programme start=\"20251013235959 +0000\" channel=\"b\">B</programme><y/></tv>").data := by
  refine ⟨?_, ?_, by decide, by decide, by decide⟩
  · simp only [cutoffTimestamp, makeDay_add]
    ring
  · have hs : s ≠ [] := by
      intro he
      have hnone : parseXMLTVStart ([] : List Char) = none := by decide
      rw [he, hnone] at h
      exact Option.noConfusion h
    unfold keepProgramme
    rw [if_neg hs, h]

set_option maxRecDepth 40000 in
/-- Witness for C4 at a concrete parsed timestamp. -/
theorem dateFilter_cutoff_boundary_witness :
    parseXMLTVStart "19700102000000 +0000".data = some 86400 ∧
    (cutoffTimestamp 1970 0 1 3 = makeDay 1970 0 1 * 86400 + 3 * 86400 ∧
      keepProgramme "19700102000000 +0000".data (cutoffTimestamp 1970 0 1 3) =
        decide ((86400 : Int) < cutoffTimestamp 1970 0 1 3) ∧
      keepProgramme "20251014000000 +0000".data (cutoffTimestamp 2025 9 11 3) = false ∧
      keepProgramme "20251013235959 +0000".data (cutoffTimestamp 2025 9 11 3) = true ∧
      runFilterTransform (cutoffTimestamp 2025 9 11 3)
          [("<tv><x/><programme start=\"20251014000000 +0000\" channel=\"a\">A</programme>" ++
            "<programme start=\"20251013235959 +0000\" channel=\"b\">B</programme><y/></tv>").data] =
        ("<tv><x/><programme start=\"20251013235959 +0000\" channel=\"b\">B</programme><y/></tv>").data) :=
  ⟨by decide, dateFilter_cutoff_boundary 1970 0 1 3 "19700102000000 +0000".data 86400 (by decide)⟩

set_option maxRecDepth 40000 in
/-- Counterexample to C3: `start="notadate"` is present but unparseable
(every field is NaN), the `NaN < cutoff` comparison is false, and the
programme is dropped from the output rather than passed through. -/
theorem unparseableStart_dropped :
    parseXMLTVStart "notadate".data = none ∧
    runFilterTransform 10000000000
        ["<tv><programme start=\"notadate\" channel=\"x\">B</programme></tv>".data] =
      "<tv></tv>".data := by
  exact ⟨by decide, by decide⟩

/-- C3 (amended): the fail-open branch applies exactly to programmes whose
extracted start attribute is empty (absent attribute, or no regex match):
`keepProgramme` keeps an element iff the start text is empty or parses to
a timestamp strictly below the cutoff; in particular a present but
unparseable start drops the element. -/
theorem keepProgramme_characterization (cutoffTs : Int) (s : List Char) :
    keepProgramme s cutoffTs = true ↔
      s = [] ∨ ∃ t, parseXMLTVStart s = some t ∧ t < cutoffTs := by
  by_cases hs : s = []
  · simp [keepProgramme, hs]
  · cases h : parseXMLTVStart s with
    | none => simp [keepProgramme, hs, h]
    | some t => simp [keepProgramme, hs, h]

set_option maxRecDepth 40000 in
/-- Counterexample to C2: an input ending inside an opened programme
element is flushed verbatim at end-of-stream — the output equals the
input, so it contains the opening marker of the unterminated element and
no matching close marker; no error of any kind is raised (the embedded
transform and flush callbacks are total and error-free, as in the source,
which contains no throw path and no StructuralError). -/
theorem unterminated_flushed_not_error :
    runFilterTransform 0 ["<tv><programme start=\"20250101000000 +0000\" channel=\"x\">".data] =
      "<tv><programme start=\"20250101000000 +0000\" channel=\"x\">".data ∧
    findOcc progOpenTok
        (runFilterTransform 0
          ["<tv><programme start=\"20250101000000 +0000\" channel=\"x\">".data]) = some 4 ∧
    findOcc progCloseTok
        (runFilterTransform 0
          ["<tv><programme start=\"20250101000000 +0000\" channel=\"x\">".data]) = none := by
  exact ⟨by decide, by decide, by decide⟩

/-- The fragmentation-sensitivity failing input for C1: one complete
programme followed by 1002 bytes of non-element trailing content. -/
def fragDoc : List Char := "<programme></programme>".data ++ List.replicate 1002 'a'

/-- Splitting a document into 1-byte chunks. -/
def oneByteChunks (l : List Char) : List (List Char) := l.map fun c => [c]

/-! ### streamDummyProgramming (streaming-filter.ts lines 142-391)

The XML parsing of the input (an external library, fast-xml-parser) and
the lineup fetch (HTTP) are collaborators: the embedding takes their
results — the parsed channel elements (id and resolved display-name), the
parsed programme elements (channel attribute), and the lineup — as inputs.
Everything from there on is embedded from the source.  The invocation
instant is parameterised by its local calendar day `(y, m0, d)` and the
timezone offset east of UTC in minutes (`tz`, the source's
`-date.getTimezoneOffset()`), constant under the fixed-offset clock
model. -/

/-- One global single-character regex replace,
`text.replace(/c/g, rep)`. -/
def replaceAllChar (c : Char) (rep : List Char) (l : List Char) : List Char :=
  (l.map fun x => if x = c then rep else [x]).flatten

/-- `escapeXML` (lines 214-221): the five metacharacter replacements, in
source order. -/
def escapeXML (text : List Char) : List Char :=
  replaceAllChar (Char.ofNat 39) "&apos;".data
    (replaceAllChar '"' "&quot;".data
      (replaceAllChar '>' "&gt;".data
        (replaceAllChar '<' "&lt;".data
          (replaceAllChar '&' "&amp;".data text))))

/-- JS `l.replace(pat, rep)` with a plain-string pattern: first occurrence
only. -/
def replaceFirst (pat rep l : List Char) : List Char :=
  match findOcc pat l with
  | none => l
  | some i => l.take i ++ rep ++ l.drop (i + pat.length)

/-- Decimal digits of a Nat (JS `String(n)` for a non-negative value). -/
def natToStr (n : Nat) : List Char := Nat.toDigits 10 n

/-- JS `String(n)` for an Int. -/
def intToStr (n : Int) : List Char :=
  if n < 0 then '-' :: natToStr (-n).toNat else natToStr n.toNat

/-- JS `s.padStart(2, '0')`. -/
def padStart2 (s : List Char) : List Char :=
  if s.length < 2 then List.replicate (2 - s.length) '0' ++ s else s

/-- `formatTimestamp` (lines 195-209): `YYYYMMDDHHmmss ±HHMM` from the
local-clock seconds value and the fixed offset-east-of-UTC in minutes. -/
def formatTimestamp (t tzOffsetMin : Int) : List Char :=
  let days := t.fdiv 86400
  let rem := t - days * 86400
  let ymd := civilFromDays days
  let h := rem / 3600
  let mi := rem % 3600 / 60
  let s := rem % 60
  let sign := if 0 ≤ tzOffsetMin then "+".data else "-".data
  intToStr ymd.1 ++ padStart2 (intToStr ymd.2.1) ++ padStart2 (intToStr ymd.2.2) ++
    padStart2 (intToStr h) ++ padStart2 (intToStr mi) ++ padStart2 (intToStr s) ++
    " ".data ++ sign ++ padStart2 (natToStr (tzOffsetMin.natAbs / 60)) ++
    padStart2 (natToStr (tzOffsetMin.natAbs % 60))

/-- Truncation toward zero of a rational (ECMAScript ToIntegerOrInfinity
on a finite value). -/
def qTrunc (q : ℚ) : Int := q.num / (q.den : Int)

/-- `nextTime.setHours(nextTime.getHours() + durationHours)` (line 243):
`getHours()` is the integer hour-of-day; `setHours` keeps the day part and
the minute/second part and feeds the (possibly fractional) hour argument
through MakeTime, which truncates it to an integer. -/
def jsSetHoursAdd (t : Int) (durH : ℚ) : Int :=
  let dayStart := t.fdiv 86400 * 86400
  let rem := t - dayStart
  let hours := rem / 3600
  let minsec := rem % 3600
  dayStart + qTrunc (mkRat (hours * (durH.den : Int) + durH.num) durH.den) * 3600 + minsec

/-- The time evolution of the `while (currentTime < endDate)` loop of
`generateDummyProgrammes` (lines 241-252), fuel-indexed: `none` means the
fuel ran out with the loop still running (the source loops on). -/
def genDummyTimes (durH : ℚ) (endT : Int) : Nat → Int → Option (List (Int × Int))
  | 0, cur => if cur < endT then none else some []
  | fuel + 1, cur =>
    if cur < endT then
      (genDummyTimes durH endT fuel (jsSetHoursAdd cur durH)).map
        fun rest => (cur, jsSetHoursAdd cur durH) :: rest
    else some []

structure ChannelInfo where
  id : List Char
  name : List Char
deriving DecidableEq

/-- The placeholder parameters of one `streamDummyProgramming` invocation:
parsed duration, resolved title and description template, day horizon, and
the invocation day / timezone. -/
structure DummySpec where
  durationHours : ℚ
  title : List Char
  descTemplate : List Char
  days : Int
  y : Int
  m0 : Int
  d : Int
  tz : Int
deriving DecidableEq

/-- `descTemplate.replace('{channel}', channel.name)` (line 239; computed
once per channel, used in every yielded block). -/
def dummyDescription (spec : DummySpec) (c : ChannelInfo) : List Char :=
  replaceFirst "\x7bchannel\x7d".data c.name spec.descTemplate

/-- One yielded placeholder block (lines 245-248). -/
def programmeXML (spec : DummySpec) (c : ChannelInfo) (cur next : Int) : List Char :=
  "  <programme channel=\"".data ++ escapeXML c.id ++ "\" start=\"".data ++
    formatTimestamp cur spec.tz ++ "\" stop=\"".data ++ formatTimestamp next spec.tz ++
    "\">\n    <title lang=\"en\">".data ++ escapeXML spec.title ++
    "</title>\n    <desc lang=\"en\">".data ++ escapeXML (dummyDescription spec c) ++
    "</desc>\n  </programme>\n".data

/-- `startDate`: local midnight of the invocation day (lines 233-234). -/
def dummyStartTime (spec : DummySpec) : Int := makeDay spec.y spec.m0 spec.d * 86400

/-- `endDate`: `startDate` with `days` added to the day-of-month through
the calendar (lines 235-236). -/
def dummyEndTime (spec : DummySpec) : Int :=
  makeDay spec.y spec.m0 (spec.d + spec.days) * 86400

/-- Fuel bound for the generator loop: for any whole-hour duration of at
least one hour every step advances at least one hour, so `24 * days + 2`
constructors are never exhausted; a sub-hour duration exhausts any fuel
(the source loops forever there, see the C5 theorem). -/
def genFuel (spec : DummySpec) : Nat := spec.days.toNat * 24 + 2

/-- The yields of the generator loop, as strings. -/
def genDummyStrings (spec : DummySpec) (c : ChannelInfo) (endT : Int) :
    Nat → Int → List (List Char)
  | 0, _ => []
  | fuel + 1, cur =>
    if cur < endT then
      programmeXML spec c cur (jsSetHoursAdd cur spec.durationHours) ::
        genDummyStrings spec c endT fuel (jsSetHoursAdd cur spec.durationHours)
    else []

/-- `generateDummyProgrammes(channel, durationHours, title, descTemplate,
days)` (lines 226-252), concatenated over all yields. -/
def generateDummyProgrammes (spec : DummySpec) (c : ChannelInfo) : List Char :=
  (genDummyStrings spec c (dummyEndTime spec) (genFuel spec) (dummyStartTime spec)).flatten

/-- One synthesized channel definition (lines 343-345). -/
def channelDefXML (c : ChannelInfo) : List Char :=
  "  <channel id=\"".data ++ escapeXML c.id ++
    "\">\n    <display-name lang=\"en\">".data ++ escapeXML c.name ++
    "</display-name>\n  </channel>\n".data

/-- JS `l.split(sep)` for a non-empty plain-string separator. -/
def jsSplitAux (sep : List Char) : Nat → List Char → List (List Char)
  | 0, l => [l]
  | fuel + 1, l =>
    match findOcc sep l with
    | none => [l]
    | some i => l.take i :: jsSplitAux sep fuel (l.drop (i + sep.length))

/-- JS `l.split(sep)`. -/
def jsSplit (sep l : List Char) : List (List Char) :=
  jsSplitAux sep (l.length + 1) l

def closingTok : List Char := "</tv>".data

/-! The channel-identification stage (lines 287-314), over the parsed
representation of the input document. -/

structure ParsedChannel where
  id : List Char
  displayName : List Char
deriving DecidableEq

structure ParsedProgramme where
  channel : List Char
deriving DecidableEq

structure LineupItem where
  guideNumber : List Char
  guideName : List Char
deriving DecidableEq

/-- `new Set(programmes.map(p => p['@_channel']).filter(Boolean))`;
membership below goes through `List.contains`. -/
def channelsWithPrograms (progs : List ParsedProgramme) : List (List Char) :=
  (progs.map fun p => p.channel).filter fun s => s ≠ []

/-- `new Set(channels.map(c => c['@_id']).filter(Boolean))`. -/
def existingChannels (chs : List ParsedChannel) : List (List Char) :=
  (chs.map fun c => c.id).filter fun s => s ≠ []

/-- Lines 298-302: lineup entries whose GuideNumber is truthy and absent
from the input's channel ids. -/
def missingChannels (lineup : List LineupItem) (chs : List ParsedChannel) : List ChannelInfo :=
  (lineup.filter fun it =>
      it.guideNumber ≠ [] ∧ ¬ (existingChannels chs).contains it.guideNumber).map
    fun it => ⟨it.guideNumber, it.guideName⟩

/-- Lines 305-314: input channels with a truthy id and no programme; the
display name prefers the lineup's GuideName when truthy, else the parsed
display-name (already resolved from its string/object forms). -/
def channelsNeedingDummy (lineup : List LineupItem) (chs : List ParsedChannel)
    (progs : List ParsedProgramme) : List ChannelInfo :=
  (chs.filter fun ch => ch.id ≠ [] ∧ ¬ (channelsWithPrograms progs).contains ch.id).map
    fun ch =>
      ⟨ch.id,
        match lineup.find? fun it => it.guideNumber == ch.id with
        | some it => if it.guideName ≠ [] then it.guideName else ch.displayName
        | none => ch.displayName⟩

structure DummyState where
  insideClosingTag : Bool
  buffer : List Char
deriving DecidableEq

/-- Everything pushed at the insertion point (lines 341-355): the new
channel definitions, then dummy programmes for
`[...channelsNeedingDummy, ...missingChannels]`. -/
def dummyInsertion (missing needing : List ChannelInfo) (spec : DummySpec) : List Char :=
  (missing.map channelDefXML).flatten ++
    ((needing ++ missing).map (generateDummyProgrammes spec)).flatten

/-- One `transform` callback invocation of the injector stream
(lines 327-371). -/
def dummyChunkStep (missing needing : List ChannelInfo) (spec : DummySpec)
    (st : DummyState) (chunk : List Char) : List Char × DummyState :=
  let buffer := st.buffer ++ chunk
  if (findOcc closingTok buffer).isSome ∧ st.insideClosingTag = false then
    let parts := jsSplit closingTok buffer
    (parts.headD [] ++ dummyInsertion missing needing spec ++ closingTok ++
        parts.getD 1 [],
      ⟨true, []⟩)
  else if st.insideClosingTag = false then
    if 10000 < buffer.length then
      (jsSlice buffer 0 (-1000), ⟨false, jsSliceFrom buffer (-1000)⟩)
    else ([], ⟨false, buffer⟩)
  else ([], ⟨st.insideClosingTag, buffer⟩)

/-- All chunks through the injector transform. -/
def dummyRun (missing needing : List ChannelInfo) (spec : DummySpec) (st : DummyState) :
    List (List Char) → List (List Char) × DummyState
  | [] => ([], st)
  | chunk :: rest =>
    let r := dummyChunkStep missing needing spec st chunk
    let rec2 := dummyRun missing needing spec r.2 rest
    (r.1 :: rec2.1, rec2.2)

/-- A whole injector pipeline run including the `flush` callback of lines
372-377, which pushes the remaining buffer unless the closing tag was
already handled. -/
def runDummyTransform (missing needing : List ChannelInfo) (spec : DummySpec)
    (chunks : List (List Char)) : List Char :=
  let r := dummyRun missing needing spec ⟨false, []⟩ chunks
  r.1.flatten ++ (if r.2.insideClosingTag then [] else r.2.buffer)

/-- `options.title || 'No Information'` (line 264). -/
def resolveTitle (title : List Char) : List Char :=
  if title = [] then "No Information".data else title

/-- `options.description || '...'` (line 265). -/
def resolveDesc (desc : List Char) : List Char :=
  if desc = [] then
    "No program information is currently available for \x7bchannel\x7d.".data
  else desc

/-- `options.daysFilter || 7` (line 266): falsy (absent or 0) gives 7. -/
def resolveDays (daysFilter : Option Int) : Int :=
  match daysFilter with
  | some n => if n = 0 then 7 else n
  | none => 7

/-- The DummySpec of one invocation, from the raw options. -/
def mkSpec (durationStr title desc : List Char) (daysFilter : Option Int)
    (y m0 d tz : Int) : DummySpec :=
  ⟨parseDuration durationStr, resolveTitle title, resolveDesc desc,
    resolveDays daysFilter, y, m0, d, tz⟩

/-- `streamDummyProgramming` end to end (lines 257-391): identify the
missing and programme-less channels, copy the file when nothing is to be
done, otherwise pipe the input through the injector transform. -/
def streamDummyProgramming (chs : List ParsedChannel) (progs : List ParsedProgramme)
    (lineup : List LineupItem) (durationStr title desc : List Char)
    (daysFilter : Option Int) (y m0 d tz : Int) (input : List Char) : List Char :=
  let spec := mkSpec durationStr title desc daysFilter y m0 d tz
  let missing := missingChannels lineup chs
  let needing := channelsNeedingDummy lineup chs progs
  if missing = [] ∧ needing = [] then input
  else runDummyTransform missing needing spec [input]

theorem jsSetHoursAdd_half_at_midnight (k : Int) :
    jsSetHoursAdd (k * 86400) (mkRat 1 2) = k * 86400 := by
  have h1 : (k * 86400).fdiv 86400 = k := Int.mul_fdiv_cancel k (by norm_num)
  have h2 : qTrunc (mkRat (0 * ((mkRat 1 2).den : Int) + (mkRat 1 2).num) (mkRat 1 2).den)
      = 0 := by decide
  simp only [jsSetHoursAdd, h1, sub_self, Int.zero_ediv, Int.zero_emod, h2]
  ring

/-- C5 fails on the code: with the minimum duration 0.5h (from "30min"),
`setHours(getHours() + 0.5)` truncates the fractional hour away, so
`currentTime` never advances from midnight and the generator loop of
`generateDummyProgrammes` never terminates (no fuel bound suffices) for
any day horizon of at least 1; the claimed finite covering sequence does
not exist. -/
theorem generateDummy_30min_diverges :
    parseDuration "30min".data = mkRat 1 2 ∧
    ∀ (y m0 d days : Int) (fuel : Nat), 1 ≤ days →
      genDummyTimes (mkRat 1 2) (makeDay y m0 (d + days) * 86400) fuel
        (makeDay y m0 d * 86400) = none := by
  refine ⟨by decide, ?_⟩
  intro y m0 d days fuel hdays
  have hlt : makeDay y m0 d * 86400 < makeDay y m0 (d + days) * 86400 := by
    rw [makeDay_add]
    omega
  induction fuel with
  | zero => simp [genDummyTimes, hlt]
  | succ n ih =>
    rw [show genDummyTimes (mkRat 1 2) (makeDay y m0 (d + days) * 86400) (n + 1)
          (makeDay y m0 d * 86400) =
        if makeDay y m0 d * 86400 < makeDay y m0 (d + days) * 86400 then
          (genDummyTimes (mkRat 1 2) (makeDay y m0 (d + days) * 86400) n
              (jsSetHoursAdd (makeDay y m0 d * 86400) (mkRat 1 2))).map
            fun rest =>
              (makeDay y m0 d * 86400,
                jsSetHoursAdd (makeDay y m0 d * 86400) (mkRat 1 2)) :: rest
        else some [] from rfl]
    rw [if_pos hlt, jsSetHoursAdd_half_at_midnight, ih]
    rfl

/-- Witness for C5's divergence at a concrete invocation day, horizon 7,
and fuel 10. -/
theorem generateDummy_30min_diverges_witness :
    (1 : Int) ≤ 7 ∧
    genDummyTimes (mkRat 1 2) (makeDay 2025 9 (11 + 7) * 86400) 10
      (makeDay 2025 9 11 * 86400) = none :=
  ⟨by decide, generateDummy_30min_diverges.2 2025 9 11 7 10 (by decide)⟩

/-- An input that ends inside an opened, never-closed programme element. -/
def untermDoc : List Char :=
  "<tv><programme start=\"20250101000000 +0000\" channel=\"x\">".data

set_option maxRecDepth 40000 in
/-- C2 (amended): neither streaming transform raises anything at
end-of-stream; each `flush` callback pushes the remaining buffered text
verbatim, so an input ending with an unterminated programme element is
reproduced in full, truncated element included (shown for the date-filter
transform and for the injector transform). -/
theorem endOfStream_flush_verbatim :
    runFilterTransform 0 [untermDoc] = untermDoc ∧
    runDummyTransform [⟨"9".data, "X".data⟩] []
        ⟨1, "t".data, "d".data, 1, 2025, 9, 11, 0⟩ [untermDoc] = untermDoc := by
  exact ⟨by decide, by decide⟩

/-- Back-to-back coverage: the block list starts at `cur`, each block is
exactly `step` seconds, blocks abut, every block starts before `endT`, and
the final stop time reaches `endT` (only the last block may overshoot). -/
def Chained (step endT : Int) : Int → List (Int × Int) → Prop
  | cur, [] => endT ≤ cur
  | cur, p :: rest => p.1 = cur ∧ p.2 = cur + step ∧ cur < endT ∧ Chained step endT (cur + step) rest

theorem jsSetHoursAdd_int (t : Int) (k : Nat) :
    jsSetHoursAdd t ((k : Nat) : ℚ) = t + (k : Int) * 3600 := by
  have hnum : (((k : Nat) : ℚ)).num = (k : Int) := Rat.num_natCast k
  have hden : (((k : Nat) : ℚ)).den = 1 := Rat.den_natCast k
  have htr : ∀ n : Int, qTrunc ((n : Int) : ℚ) = n := by
    intro n
    unfold qTrunc
    rw [Rat.num_intCast, Rat.den_intCast]
    exact Int.ediv_one n
  simp only [jsSetHoursAdd, hnum, hden, Nat.cast_one, mul_one, Rat.mkRat_one, htr]
  have h1 : (3600 : Int) * ((t - t.fdiv 86400 * 86400) / 3600) +
      (t - t.fdiv 86400 * 86400) % 3600 = t - t.fdiv 86400 * 86400 :=
    Int.ediv_add_emod _ 3600
  linarith

theorem genDummyTimes_int_covers (k : Nat) (endT : Int) :
    ∀ (fuel : Nat) (cur : Int), endT - cur ≤ (fuel : Int) * ((k : Int) * 3600) →
      ∃ ts, genDummyTimes ((k : Nat) : ℚ) endT fuel cur = some ts ∧
        Chained ((k : Int) * 3600) endT cur ts := by
  intro fuel
  induction fuel with
  | zero =>
    intro cur hle
    rw [Nat.cast_zero, zero_mul] at hle
    have hnlt : ¬ cur < endT := by omega
    exact ⟨[], by simp [genDummyTimes, hnlt], by simp [Chained]; omega⟩
  | succ n ih =>
    intro cur hle
    by_cases hlt : cur < endT
    · have hnext : jsSetHoursAdd cur ((k : Nat) : ℚ) = cur + (k : Int) * 3600 :=
        jsSetHoursAdd_int cur k
      have hle2 : endT - (cur + (k : Int) * 3600) ≤ (n : Int) * ((k : Int) * 3600) := by
        have hexp : ((n : Int) + 1) * ((k : Int) * 3600) =
            (n : Int) * ((k : Int) * 3600) + (k : Int) * 3600 := by ring
        have hcast : ((n + 1 : Nat) : Int) = (n : Int) + 1 := by push_cast; ring
        rw [hcast, hexp] at hle
        linarith
      obtain ⟨ts, hts, hch⟩ := ih (cur + (k : Int) * 3600) hle2
      refine ⟨(cur, cur + (k : Int) * 3600) :: ts, ?_, ?_⟩
      · rw [show genDummyTimes ((k : Nat) : ℚ) endT (n + 1) cur =
            (if cur < endT then
              (genDummyTimes ((k : Nat) : ℚ) endT n (jsSetHoursAdd cur ((k : Nat) : ℚ))).map
                (fun rest => (cur, jsSetHoursAdd cur ((k : Nat) : ℚ)) :: rest)
            else some []) from rfl]
        rw [if_pos hlt, hnext, hts]
        rfl
      · simp only [Chained]
        exact ⟨trivial, trivial, hlt, hch⟩
    · refine ⟨[], ?_, by simp only [Chained]; omega⟩
      rw [show genDummyTimes ((k : Nat) : ℚ) endT (n + 1) cur =
          (if cur < endT then
            (genDummyTimes ((k : Nat) : ℚ) endT n (jsSetHoursAdd cur ((k : Nat) : ℚ))).map
              (fun rest => (cur, jsSetHoursAdd cur ((k : Nat) : ℚ)) :: rest)
          else some []) from rfl]
      rw [if_neg hlt]

theorem genDummyStrings_eq_of_times (spec : DummySpec) (c : ChannelInfo) (endT : Int) :
    ∀ (fuel : Nat) (cur : Int) (ts : List (Int × Int)),
      genDummyTimes spec.durationHours endT fuel cur = some ts →
      genDummyStrings spec c endT fuel cur =
        ts.map fun p => programmeXML spec c p.1 p.2 := by
  intro fuel
  induction fuel with
  | zero =>
    intro cur ts h
    by_cases hlt : cur < endT
    · simp [genDummyTimes, hlt] at h
    · simp only [genDummyTimes, if_neg hlt, Option.some.injEq] at h
      subst h
      rfl
  | succ n ih =>
    intro cur ts h
    rw [show genDummyTimes spec.durationHours endT (n + 1) cur =
        (if cur < endT then
          (genDummyTimes spec.durationHours endT n (jsSetHoursAdd cur spec.durationHours)).map
            (fun rest => (cur, jsSetHoursAdd cur spec.durationHours) :: rest)
        else some []) from rfl] at h
    rw [show genDummyStrings spec c endT (n + 1) cur =
        (if cur < endT then
          programmeXML spec c cur (jsSetHoursAdd cur spec.durationHours) ::
            genDummyStrings spec c endT n (jsSetHoursAdd cur spec.durationHours)
        else []) from rfl]
    by_cases hlt : cur < endT
    · rw [if_pos hlt] at h
      rw [if_pos hlt]
      cases hrec : genDummyTimes spec.durationHours endT n (jsSetHoursAdd cur spec.durationHours) with
      | none => rw [hrec] at h; exact absurd h (by simp)
      | some ts2 =>
        rw [hrec] at h
        have h2 : ((cur, jsSetHoursAdd cur spec.durationHours) :: ts2) = ts := by
          simpa using h
        rw [ih _ ts2 hrec, ← h2]
        simp
    · rw [if_neg hlt] at h
      rw [if_neg hlt]
      simp only [Option.some.injEq] at h
      rw [← h]
      simp

theorem jsSplit_pair_isSome {sep l x y : List Char} (h : jsSplit sep l = [x, y]) :
    (findOcc sep l).isSome = true := by
  cases hf : findOcc sep l with
  | none =>
    rw [jsSplit] at h
    rw [show jsSplitAux sep (l.length + 1) l =
        (match findOcc sep l with
         | none => [l]
         | some i => l.take i :: jsSplitAux sep l.length (l.drop (i + sep.length))) from rfl,
      hf] at h
    exact absurd (congrArg List.length h) (by simp)
  | some i => rfl

/-- C6: Injector end-to-end: for a document with channel elements
{a, b} where only a has programme elements, and a roster {a, b, c}, the
output equals the input except that, just before the closing root tag,
exactly one new channel element for c is inserted, followed by the
placeholder programme runs for b and for c; every other input byte is
unchanged.  The second conjunct settles "covering the requested horizon":
for any whole-hour duration (at least 1h) the generated placeholder run is
a finite chain of back-to-back blocks of exactly that duration, starting
at local midnight of the invocation day, whose last stop time reaches
midnight plus the day horizon (only the final block may overshoot). -/
theorem streamDummyProgramming_end_to_end
    (a b c da db na nb nc pre suf input : List Char) (progs : List ParsedProgramme)
    (durationStr title desc : List Char) (daysFilter : Option Int) (y m0 d tz : Int)
    (ha : a ≠ []) (hb : b ≠ []) (hc : c ≠ [])
    (hab : a ≠ b) (hac : a ≠ c) (hbc : b ≠ c)
    (hpa : a ∈ channelsWithPrograms progs)
    (hpb : b ∉ channelsWithPrograms progs)
    (hnb : nb ≠ [])
    (hsplit : jsSplit closingTok input = [pre, suf]) :
    streamDummyProgramming [⟨a, da⟩, ⟨b, db⟩] progs [⟨a, na⟩, ⟨b, nb⟩, ⟨c, nc⟩]
        durationStr title desc daysFilter y m0 d tz input =
      pre ++ channelDefXML ⟨c, nc⟩ ++
        generateDummyProgrammes (mkSpec durationStr title desc daysFilter y m0 d tz) ⟨b, nb⟩ ++
        generateDummyProgrammes (mkSpec durationStr title desc daysFilter y m0 d tz) ⟨c, nc⟩ ++
        closingTok ++ suf ∧
    (∀ k : Nat, 1 ≤ k →
      parseDuration durationStr = ((k : Nat) : ℚ) →
      ∃ ts,
        genDummyTimes ((k : Nat) : ℚ)
            (dummyEndTime (mkSpec durationStr title desc daysFilter y m0 d tz))
            (genFuel (mkSpec durationStr title desc daysFilter y m0 d tz))
            (dummyStartTime (mkSpec durationStr title desc daysFilter y m0 d tz)) = some ts ∧
        Chained ((k : Int) * 3600)
          (dummyEndTime (mkSpec durationStr title desc daysFilter y m0 d tz))
          (dummyStartTime (mkSpec durationStr title desc daysFilter y m0 d tz)) ts ∧
        ∀ ch, generateDummyProgrammes (mkSpec durationStr title desc daysFilter y m0 d tz) ch =
          (ts.map fun p =>
            programmeXML (mkSpec durationStr title desc daysFilter y m0 d tz) ch p.1 p.2).flatten) := by
  constructor
  · have hex : existingChannels [⟨a, da⟩, ⟨b, db⟩] = [a, b] := by
      simp [existingChannels, ha, hb]
    have hmiss : missingChannels [⟨a, na⟩, ⟨b, nb⟩, ⟨c, nc⟩] [⟨a, da⟩, ⟨b, db⟩]
        = [⟨c, nc⟩] := by
      simp [missingChannels, hex, ha, hb, hc, hac.symm, hbc.symm]
    have habq : (a == b) = false := beq_eq_false_iff_ne.mpr hab
    have hneed : channelsNeedingDummy [⟨a, na⟩, ⟨b, nb⟩, ⟨c, nc⟩] [⟨a, da⟩, ⟨b, db⟩] progs
        = [⟨b, nb⟩] := by
      simp [channelsNeedingDummy, ha, hb, hpa, hpb, List.find?, habq, hnb]
    have hsome : (findOcc closingTok input).isSome = true := jsSplit_pair_isSome hsplit
    unfold streamDummyProgramming
    rw [hmiss, hneed, if_neg (by simp)]
    unfold runDummyTransform dummyRun dummyChunkStep
    simp only [List.nil_append]
    rw [if_pos ⟨hsome, trivial⟩, hsplit]
    simp [dummyInsertion, dummyRun, List.append_assoc]
  · intro k hk hdur
    have hdh : (mkSpec durationStr title desc daysFilter y m0 d tz).durationHours
        = ((k : Nat) : ℚ) := hdur
    have hse : dummyEndTime (mkSpec durationStr title desc daysFilter y m0 d tz) -
        dummyStartTime (mkSpec durationStr title desc daysFilter y m0 d tz) =
        resolveDays daysFilter * 86400 := by
      simp only [dummyEndTime, dummyStartTime, mkSpec, makeDay_add]
      ring
    have hfuel : dummyEndTime (mkSpec durationStr title desc daysFilter y m0 d tz) -
        dummyStartTime (mkSpec durationStr title desc daysFilter y m0 d tz) ≤
        ((genFuel (mkSpec durationStr title desc daysFilter y m0 d tz) : Nat) : Int) *
          ((k : Int) * 3600) := by
      rw [hse]
      simp only [genFuel, mkSpec]
      by_cases hpos : 0 ≤ resolveDays daysFilter
      · have htn : ((resolveDays daysFilter).toNat : Int) = resolveDays daysFilter :=
          Int.toNat_of_nonneg hpos
        push_cast
        rw [htn]
        nlinarith [hpos, hk, Int.toNat_of_nonneg hpos]
      · have hneg : resolveDays daysFilter * 86400 ≤ 0 := by nlinarith [le_of_not_le hpos]
        have hrhs : (0 : Int) ≤
            (((resolveDays daysFilter).toNat * 24 + 2 : Nat) : Int) * ((k : Int) * 3600) := by
          positivity
        linarith
    obtain ⟨ts, hts, hch⟩ :=
      genDummyTimes_int_covers k
        (dummyEndTime (mkSpec durationStr title desc daysFilter y m0 d tz))
        (genFuel (mkSpec durationStr title desc daysFilter y m0 d tz))
        (dummyStartTime (mkSpec durationStr title desc daysFilter y m0 d tz)) hfuel
    refine ⟨ts, hts, hch, fun ch => ?_⟩
    unfold generateDummyProgrammes
    rw [genDummyStrings_eq_of_times _ ch _ _ _ ts (by rw [hdh]; exact hts)]

set_option maxRecDepth 40000 in
/-- Witness for C6: channels {1.1, 1.2} in the document, roster
{1.1, 1.2, 1.3}, only 1.1 has a programme. -/
theorem streamDummyProgramming_end_to_end_witness :
    streamDummyProgramming [⟨"1.1".data, "DA".data⟩, ⟨"1.2".data, "DB".data⟩]
        [⟨"1.1".data⟩]
        [⟨"1.1".data, "NameA".data⟩, ⟨"1.2".data, "NameB".data⟩,
          ⟨"1.3".data, "NameC".data⟩]
        "1hr".data [] [] (some 1) 2025 9 11 0 "<tv>X</tv>\n".data =
      "<tv>X".data ++ channelDefXML ⟨"1.3".data, "NameC".data⟩ ++
        generateDummyProgrammes (mkSpec "1hr".data [] [] (some 1) 2025 9 11 0)
          ⟨"1.2".data, "NameB".data⟩ ++
        generateDummyProgrammes (mkSpec "1hr".data [] [] (some 1) 2025 9 11 0)
          ⟨"1.3".data, "NameC".data⟩ ++
        closingTok ++ "\n".data :=
  (streamDummyProgramming_end_to_end "1.1".data "1.2".data "1.3".data "DA".data "DB".data
    "NameA".data "NameB".data "NameC".data "<tv>X".data "\n".data "<tv>X</tv>\n".data
    [⟨"1.1".data⟩] "1hr".data [] [] (some 1) 2025 9 11 0
    (by decide) (by decide) (by decide) (by decide) (by decide) (by decide)
    (by decide) (by decide) (by decide) (by decide)).1

theorem filterRun_append (cutoffTs : Int) (st : FilterState) (xs ys : List (List Char)) :
    filterRun cutoffTs st (xs ++ ys) =
      ((filterRun cutoffTs st xs).1 ++ (filterRun cutoffTs (filterRun cutoffTs st xs).2 ys).1,
        (filterRun cutoffTs (filterRun cutoffTs st xs).2 ys).2) := by
  induction xs generalizing st with
  | nil => rfl
  | cons x xs ih =>
    simp only [List.cons_append, filterRun, List.append_eq]
    rw [ih]

theorem findOccAux_replicate_a (pat : List Char) (hpat : pat.head? = some '<') :
    ∀ (m i : Nat), findOccAux pat i (List.replicate m 'a') = none := by
  intro m
  induction m with
  | zero => intro i; rfl
  | succ n ih =>
    intro i
    rw [List.replicate_succ]
    have hpre : pat.isPrefixOf ('a' :: List.replicate n 'a') = false := by
      cases pat with
      | nil => simp at hpat
      | cons p ps =>
        simp only [List.head?_cons, Option.some.injEq] at hpat
        subst hpat
        simp [List.isPrefixOf]
    rw [findOccAux, hpre]
    simp only [Bool.false_eq_true, if_false]
    exact ih (i + 1)

theorem filterScan_no_open (cutoffTs : Int) (fuel : Nat) (st : ScanState)
    (hin : st.insideProgramme = false)
    (hocc : jsIndexOfFrom progOpenTok st.buffer st.pos = none)
    (hcond : ¬ (st.pos : Int) < (st.buffer.length : Int) - 1000) :
    filterScan cutoffTs (fuel + 1) st = st := by
  conv_lhs => rw [filterScan]
  simp only [hin, Bool.false_eq_true, if_false, hocc, if_neg hcond]

theorem jsSliceFrom_zero_nat (l : List Char) : jsSliceFrom l ((0 : Nat) : Int) = l := by
  simp [jsSliceFrom]

theorem filterChunk_a_fill (k : Nat) (h : k + 1 ≤ 1000) :
    filterChunk 0 ⟨List.replicate k 'a', false, []⟩ ['a']
      = ([], ⟨List.replicate (k + 1) 'a', false, []⟩) := by
  have hbuf : List.replicate k 'a' ++ ['a'] = List.replicate (k + 1) 'a' :=
    (List.replicate_succ' _ _).symm
  have hocc : jsIndexOfFrom progOpenTok (List.replicate (k + 1) 'a') 0 = none := by
    unfold jsIndexOfFrom findOcc
    rw [List.drop_zero, findOccAux_replicate_a progOpenTok (by decide)]
    rfl
  have hcond : ¬ ((0 : Nat) : Int) < ((List.replicate (k + 1) 'a').length : Int) - 1000 := by
    rw [List.length_replicate]
    push_cast
    omega
  simp only [filterChunk, hbuf]
  rw [show (List.replicate (k + 1) 'a').length + 1 = (k + 1) + 1 by rw [List.length_replicate]]
  rw [filterScan_no_open 0 (k + 1)
    ⟨[], 0, List.replicate (k + 1) 'a', false, []⟩ rfl hocc hcond]
  rw [jsSliceFrom_zero_nat]

set_option maxRecDepth 10000 in
theorem filterChunk_a_steady :
    filterChunk 0 ⟨List.replicate 1000 'a', false, []⟩ ['a']
      = (['a'], ⟨List.replicate 1000 'a', false, []⟩) := by decide

theorem aRunFill (n : Nat) :
    ∀ k : Nat, k + n ≤ 1000 →
      filterRun 0 ⟨List.replicate k 'a', false, []⟩ (List.replicate n ['a'])
        = (List.replicate n [], ⟨List.replicate (k + n) 'a', false, []⟩) := by
  induction n with
  | zero => intro k _; rfl
  | succ n ih =>
    intro k hk
    rw [List.replicate_succ]
    have hunf : filterRun 0 ⟨List.replicate k 'a', false, []⟩ (['a'] :: List.replicate n ['a']) =
        (let r := filterChunk 0 ⟨List.replicate k 'a', false, []⟩ ['a']
         let rec2 := filterRun 0 r.2 (List.replicate n ['a'])
         (r.1 :: rec2.1, rec2.2)) := rfl
    rw [hunf, filterChunk_a_fill k (by omega)]
    dsimp only
    rw [ih (k + 1) (by omega)]
    rw [List.replicate_succ]
    have harith : k + 1 + n = k + (n + 1) := by omega
    rw [harith]

theorem aRunSteady (n : Nat) :
    filterRun 0 ⟨List.replicate 1000 'a', false, []⟩ (List.replicate n ['a'])
      = (List.replicate n ['a'], ⟨List.replicate 1000 'a', false, []⟩) := by
  induction n with
  | zero => rfl
  | succ n ih =>
    rw [List.replicate_succ (['a'] : List Char) n]
    have hunf : filterRun 0 ⟨List.replicate 1000 'a', false, []⟩
        (['a'] :: List.replicate n ['a']) =
        (let r := filterChunk 0 ⟨List.replicate 1000 'a', false, []⟩ ['a']
         let rec2 := filterRun 0 r.2 (List.replicate n ['a'])
         (r.1 :: rec2.1, rec2.2)) := rfl
    rw [hunf, filterChunk_a_steady]
    dsimp only
    rw [ih]

theorem flatten_replicate_nil (n : Nat) :
    (List.replicate n ([] : List Char)).flatten = [] := by
  induction n with
  | zero => rfl
  | succ n ih => rw [List.replicate_succ, List.flatten_cons, ih]; rfl

set_option maxRecDepth 10000 in
theorem oneByte_run_faithful :
    runFilterTransform 0 (oneByteChunks fragDoc) = fragDoc := by
  have hsplit : oneByteChunks fragDoc =
      oneByteChunks "<programme></programme>".data ++ List.replicate 1002 ['a'] := by
    unfold oneByteChunks fragDoc
    rw [List.map_append, List.map_replicate]
  have h1a : (filterRun 0 ⟨[], false, []⟩ (oneByteChunks "<programme></programme>".data)).2
      = ⟨[], false, []⟩ := by decide
  have h1b : (filterRun 0 ⟨[], false, []⟩
      (oneByteChunks "<programme></programme>".data)).1.flatten
      = "<programme></programme>".data := by decide
  have hsplit2 : List.replicate 1002 (['a'] : List Char) =
      List.replicate 1000 ['a'] ++ List.replicate 2 ['a'] := by
    rw [← List.replicate_add]
  have hfill := aRunFill 1000 0 (by omega)
  rw [show (List.replicate 0 'a' : List Char) = [] from rfl,
    show ((0 : Nat) + 1000) = 1000 from rfl] at hfill
  have hsteady := aRunSteady 2
  unfold runFilterTransform
  rw [hsplit, filterRun_append, h1a, hsplit2, filterRun_append, hfill]
  dsimp only
  rw [hsteady]
  dsimp only
  rw [List.flatten_append, h1b, List.flatten_append, flatten_replicate_nil]
  rw [show (List.replicate 2 (['a'] : List Char)).flatten = List.replicate 2 'a' from rfl]
  unfold fragDoc
  rw [List.nil_append, List.append_assoc,
    show List.replicate 2 'a' ++ List.replicate 1000 'a' = List.replicate 1002 'a' by
      rw [← List.replicate_add]]

set_option maxRecDepth 100000 in
/-- C1 fails on the code: processing `fragDoc` as a single chunk re-emits
the programme twice and loses trailing bytes (the `buffer.slice(0, -1000)`
flush ignores `pos`, and the final `buffer.slice(pos)` is applied to the
already re-sliced buffer), while 1-byte chunks reproduce the document
faithfully; the two runs differ. -/
theorem chunk_invariance_fails :
    runFilterTransform 0 [fragDoc] =
      ("<programme></programme><programme></programme>aa".data ++ List.replicate 977 'a') ∧
    runFilterTransform 0 (oneByteChunks fragDoc) = fragDoc ∧
    runFilterTransform 0 (oneByteChunks fragDoc) ≠ runFilterTransform 0 [fragDoc] := by
  have e1 : runFilterTransform 0 [fragDoc] =
      ("<programme></programme><programme></programme>aa".data ++ List.replicate 977 'a') :=
    eq_of_beq (by decide)
  refine ⟨e1, oneByte_run_faithful, ?_⟩
  rw [e1, oneByte_run_faithful]
  intro h
  exact absurd h (by decide)

end HDHR
